import Mathlib

/-!
Verification of the realm archetype-based ECS core.

Each definition is a shallow embedding of a function of the Rust source
(src/entity.rs, src/storage.rs, src/compactable.rs, src/world.rs).  Machine
integers (u64, usize) are modelled as Nat: none of the embedded operations can
overflow in any execution reachable from a fresh world, because ids only grow
by one per allocation.  Hash maps are modelled as association lists with the
key-value semantics of HashMap (insert replaces, remove deletes, lookup by
key); hash iteration order is modelled by list order.  Fallible or panicking
accesses are modelled totally via getD with out-of-range defaults, and every
theorem that depends on an access being in range carries that bound as a
hypothesis.
-/

namespace Realm

/-! ### Association-list model of std HashMap -/

/-- Lookup by key, as HashMap get: first entry with the key. -/
def mapGet {α : Type} : List (Nat × α) → Nat → Option α
  | [], _ => none
  | (k, v) :: rest, e => if k = e then some v else mapGet rest e

/-- Remove every entry with the key, as HashMap remove (keys are unique in
any map built through mapSet, so at most one entry is removed). -/
def mapRemove {α : Type} : List (Nat × α) → Nat → List (Nat × α)
  | [], _ => []
  | (k, v) :: rest, e => if k = e then mapRemove rest e else (k, v) :: mapRemove rest e

/-- Insert or replace, as HashMap insert. -/
def mapSet {α : Type} (m : List (Nat × α)) (e : Nat) (v : α) : List (Nat × α) :=
  mapRemove m e ++ [(e, v)]

/-- The key set, as HashMap keys. -/
def mapKeys {α : Type} (m : List (Nat × α)) : List Nat :=
  m.map Prod.fst

theorem mapGet_mapRemove {α : Type} (m : List (Nat × α)) (e x : Nat) :
    mapGet (mapRemove m e) x = if x = e then none else mapGet m x := by
  induction m with
  | nil => simp [mapGet, mapRemove]
  | cons p rest ih =>
    obtain ⟨k, v⟩ := p
    simp only [mapRemove]
    by_cases hk : k = e
    · rw [if_pos hk, ih]
      by_cases hx : x = e
      · simp [hx]
      · have hkx : k ≠ x := fun h => hx (h ▸ hk)
        simp [mapGet, hx, hkx]
    · rw [if_neg hk]
      by_cases hkx : k = x
      · have hx : x ≠ e := fun h => hk (hkx.symm ▸ h)
        simp [mapGet, hkx, hx]
      · simp [mapGet, hkx, ih]

theorem mapGet_append {α : Type} (m₁ m₂ : List (Nat × α)) (x : Nat) :
    mapGet (m₁ ++ m₂) x = ((mapGet m₁ x).rec (mapGet m₂ x) (fun v => some v) : Option α) := by
  induction m₁ with
  | nil => simp [mapGet]
  | cons p rest ih =>
    obtain ⟨k, v⟩ := p
    by_cases hk : k = x
    · simp [mapGet, hk]
    · simp only [List.cons_append, mapGet, if_neg hk]
      exact ih

theorem mapGet_mapSet {α : Type} (m : List (Nat × α)) (e x : Nat) (v : α) :
    mapGet (mapSet m e v) x = if x = e then some v else mapGet m x := by
  unfold mapSet
  rw [mapGet_append, mapGet_mapRemove]
  by_cases hx : x = e
  · simp [hx, mapGet]
  · have hex : e ≠ x := fun h => hx h.symm
    cases h : mapGet m x
    · simp [hx, mapGet, hex]
    · simp [hx]

/-! ### Entity allocator (src/entity.rs)

Entity is `u64`, modelled as Nat.  `EntityAllocator` keeps `max_id` and a FIFO
queue `available_entities` of freed handles. -/

structure EntityAllocator where
  max_id : Nat
  available_entities : List Nat
  deriving Repr, DecidableEq

namespace EntityAllocator

/-- `EntityAllocator::new`. -/
def new : EntityAllocator := ⟨0, []⟩

/-- `EntityAllocator::allocate`: pop the front of the free queue, else mint
`max_id` and increment it. -/
def allocate (s : EntityAllocator) : Nat × EntityAllocator :=
  match s.available_entities with
  | e :: rest => (e, { s with available_entities := rest })
  | [] => (s.max_id, { s with max_id := s.max_id + 1 })

/-- `EntityAllocator::deallocate`: enqueue at the back when `id < max_id`,
silently ignore otherwise. -/
def deallocate (s : EntityAllocator) (e : Nat) : EntityAllocator :=
  if e < s.max_id then { s with available_entities := s.available_entities ++ [e] } else s

end EntityAllocator

/-- C8: the allocator pops the FIFO front when the free queue is non-empty,
mints `next_id` (incrementing it) otherwise; `deallocate` enqueues exactly
when the id is below `next_id` and ignores out-of-range handles; and from any
state whose free queue holds at most one (valid) handle - in particular from
`EntityAllocator::new` - the sequence allocate; deallocate; allocate returns
the first handle again. -/
theorem entity_allocator_allocate_deallocate_spec :
    (∀ s : EntityAllocator, ∀ e rest, s.available_entities = e :: rest →
      s.allocate = (e, { s with available_entities := rest })) ∧
    (∀ s : EntityAllocator, s.available_entities = [] →
      s.allocate = (s.max_id, { s with max_id := s.max_id + 1 })) ∧
    (∀ s : EntityAllocator, ∀ e, e < s.max_id →
      s.deallocate e = { s with available_entities := s.available_entities ++ [e] }) ∧
    (∀ s : EntityAllocator, ∀ e, ¬ e < s.max_id → s.deallocate e = s) ∧
    (∀ s : EntityAllocator, s.available_entities.length ≤ 1 →
      (∀ x ∈ s.available_entities, x < s.max_id) →
      ((s.allocate.2.deallocate s.allocate.1).allocate).1 = s.allocate.1) := by
  refine ⟨?_, ?_, ?_, ?_, ?_⟩
  · intro s e rest h
    simp [EntityAllocator.allocate, h]
  · intro s h
    simp [EntityAllocator.allocate, h]
  · intro s e h
    simp [EntityAllocator.deallocate, h]
  · intro s e h
    simp [EntityAllocator.deallocate, h]
  · intro s hlen hval
    match hq : s.available_entities with
    | [] =>
      simp [EntityAllocator.allocate, hq, EntityAllocator.deallocate]
    | [x] =>
      have hx : x < s.max_id := hval x (by simp [hq])
      simp [EntityAllocator.allocate, hq, EntityAllocator.deallocate, hx]
    | x :: y :: rest =>
      rw [hq] at hlen
      simp at hlen

/-- Witness for C8 at a concrete state: queue `[3]`, `max_id = 5`. -/
theorem entity_allocator_allocate_deallocate_spec_witness :
    ((⟨5, [3]⟩ : EntityAllocator).allocate.2.deallocate
        (⟨5, [3]⟩ : EntityAllocator).allocate.1).allocate.1 =
      (⟨5, [3]⟩ : EntityAllocator).allocate.1 :=
  entity_allocator_allocate_deallocate_spec.2.2.2.2 ⟨5, [3]⟩ (by decide) (by decide)

/-- C10: `deallocate` never checks liveness, only `id < max_id`, so a double
deallocate of a live handle enqueues it twice, and from a state with an empty
free queue the next two allocations both return that same handle. -/
theorem entity_allocator_double_deallocate_duplicates :
    (∀ s : EntityAllocator, ∀ e, e < s.max_id →
      ((s.deallocate e).deallocate e).available_entities =
        s.available_entities ++ [e, e]) ∧
    (∀ s : EntityAllocator, ∀ e, e < s.max_id → s.available_entities = [] →
      (((s.deallocate e).deallocate e).allocate.1 = e ∧
        ((s.deallocate e).deallocate e).allocate.2.allocate.1 = e)) := by
  constructor
  · intro s e h
    simp [EntityAllocator.deallocate, h]
  · intro s e h hq
    simp [EntityAllocator.deallocate, h, hq, EntityAllocator.allocate]

/-- Witness for C10: allocate once from a fresh allocator, deallocate the
handle twice; both following allocations return it. -/
theorem entity_allocator_double_deallocate_duplicates_witness :
    (((EntityAllocator.new.allocate.2.deallocate 0).deallocate 0).allocate.1 = 0 ∧
      ((EntityAllocator.new.allocate.2.deallocate 0).deallocate 0).allocate.2.allocate.1 = 0) :=
  entity_allocator_double_deallocate_duplicates.2 EntityAllocator.new.allocate.2 0
    (by decide) (by decide)

/-! ### Swap-remove on packed arrays (src/compactable.rs, src/storage.rs)

`ComponentArray::swap_remove` and `Vec::swap_remove` share the same
semantics: move the last element into the removed slot (when the removed
slot is not last) and shrink by one. -/

/-- The post-state of a swap-remove at index `r`: when `r` is not the last
index the last value is first moved into slot `r`, then the length is
decremented. -/
def swapRemoveList {α : Type} [Inhabited α] (l : List α) (r : Nat) : List α :=
  if r + 1 < l.length then (l.set r (l.getD (l.length - 1) default)).dropLast
  else l.dropLast

/-- `ComponentArray::swap_remove`: the removed value (read from the last slot
after the swap, i.e. the original value at `r`) together with the shrunk
array. -/
def ComponentArray.swapRemove {α : Type} [Inhabited α] (l : List α) (r : Nat) :
    α × List α :=
  (l.getD r default, swapRemoveList l r)

theorem getElem?_dropLast {α : Type} (l : List α) (j : Nat) (h : j < l.length - 1) :
    l.dropLast[j]? = l[j]? := by
  rw [List.dropLast_eq_take]
  exact List.getElem?_take_of_lt h

theorem length_swapRemoveList {α : Type} [Inhabited α] (l : List α) (r : Nat) :
    (swapRemoveList l r).length = l.length - 1 := by
  unfold swapRemoveList
  split <;> simp

theorem getElem?_swapRemoveList_of_ne {α : Type} [Inhabited α] (l : List α)
    (r j : Nat) (hj : j < l.length - 1) (hjr : j ≠ r) :
    (swapRemoveList l r)[j]? = l[j]? := by
  unfold swapRemoveList
  split
  · rw [getElem?_dropLast _ _ (by simpa using hj), List.getElem?_set_ne (Ne.symm hjr)]
  · exact getElem?_dropLast _ _ hj

theorem getElem?_swapRemoveList_self {α : Type} [Inhabited α] (l : List α)
    (r : Nat) (hr : r + 1 < l.length) :
    (swapRemoveList l r)[r]? = l[l.length - 1]? := by
  unfold swapRemoveList
  rw [if_pos hr]
  have hrlt : r < l.length := by omega
  have hlast : l.length - 1 < l.length := by omega
  rw [getElem?_dropLast _ _ (by simpa using (by omega : r < l.length - 1))]
  rw [List.getElem?_set_self' ]
  rw [List.getElem?_eq_getElem hlast]
  rw [List.getElem?_eq_getElem hrlt]
  simp [List.getD_eq_getElem?_getD, List.getElem?_eq_getElem hlast]

theorem mem_of_mem_swapRemoveList {α : Type} [Inhabited α] (l : List α)
    (r : Nat) (x : α) (hx : x ∈ swapRemoveList l r) : x ∈ l := by
  unfold swapRemoveList at hx
  split at hx
  · rename_i h
    have hx' := List.dropLast_subset _ hx
    rcases List.mem_or_eq_of_mem_set hx' with h1 | h2
    · exact h1
    · subst h2
      have hlast : l.length - 1 < l.length := by omega
      rw [List.getD_eq_getElem?_getD, List.getElem?_eq_getElem hlast]
      exact List.getElem_mem hlast
  · exact List.dropLast_subset _ hx

/-! ### Typed storage (src/compactable.rs)

`CompactableStorage<T>` holds one packed array per registered archetype.
`indices` maps an archetype id to a slot in `components`; unregistered ids
hold the sentinel `usize::MAX` (out of range of any slot vector reachable
here).  `views` shadows the per-slot lengths (the pointer half of a view is
not represented). -/

def usizeMax : Nat := 2 ^ 64 - 1

structure CompactableStorage (α : Type) where
  length : Nat
  indices : List Nat
  views : List Nat
  components : List (List α)
  deriving Repr, DecidableEq

namespace CompactableStorage

/-- `Default::default()` for `CompactableStorage<T>`. -/
def empty {α : Type} : CompactableStorage α := ⟨0, [], [], []⟩

/-- `CompactableStorage::index`. -/
def index {α : Type} (s : CompactableStorage α) (a : Nat) : Nat :=
  s.indices.getD a usizeMax

/-- `CompactableStorage::update_view`. -/
def updateView {α : Type} (s : CompactableStorage α) (vi : Nat) : CompactableStorage α :=
  { s with views := s.views.set vi ((s.components.getD vi []).length) }

/-- `CompactableStorage::insert_entity_type`: append a fresh empty array and
view slot, extend `indices` with the sentinel as needed, and point the
archetype at the new slot. -/
def insertEntityType {α : Type} (s : CompactableStorage α) (a : Nat) : CompactableStorage α :=
  let viewIndex := s.views.length
  let views := s.views ++ [0]
  let components := s.components ++ [([] : List α)]
  let indices :=
    if s.indices.length ≤ a then
      s.indices ++ List.replicate (a + 1 - s.indices.length) usizeMax
    else s.indices
  { s with views := views, components := components, indices := indices.set a viewIndex }

/-- `CompactableStorage::extend_memcopy_raw`: bulk-append `vals` to the
archetype's array, refresh the view, and add the count to `length`. -/
def extendMemcopyRaw {α : Type} (s : CompactableStorage α) (a : Nat) (vals : List α) :
    CompactableStorage α :=
  let vi := s.index a
  let arr := (s.components.getD vi []) ++ vals
  { s with components := s.components.set vi arr,
           views := s.views.set vi arr.length,
           length := s.length + vals.length }

/-- `CompactableStorage::swap_remove_internal`. -/
def swapRemoveInternal {α : Type} [Inhabited α] (s : CompactableStorage α) (a r : Nat) :
    α × CompactableStorage α :=
  let vi := s.index a
  let removed := ComponentArray.swapRemove (s.components.getD vi []) r
  let s1 := { s with components := s.components.set vi removed.2 }
  let s2 := s1.updateView vi
  (removed.1, { s2 with length := s2.length - 1 })

/-- `OpaqueComponentStorage::swap_remove` for `CompactableStorage`. -/
def swapRemove {α : Type} [Inhabited α] (s : CompactableStorage α) (a r : Nat) :
    CompactableStorage α :=
  (s.swapRemoveInternal a r).2

/-- `CompactableStorage::move_component`: swap-remove from the source
archetype's array and append to the destination archetype's array, refreshing
both views; `length` is left untouched by the source. -/
def moveComponent {α : Type} [Inhabited α] (s : CompactableStorage α)
    (src r dst : Nat) : CompactableStorage α :=
  let svi := s.index src
  let dvi := s.index dst
  let removed := ComponentArray.swapRemove (s.components.getD svi []) r
  let s1 := { s with components := s.components.set svi removed.2 }
  let darr := (s1.components.getD dvi []) ++ [removed.1]
  let s2 := { s1 with components := s1.components.set dvi darr }
  (s2.updateView svi).updateView dvi

/-- `CompactableStorage::transfer_entity_type`: the source subtracts the
moved count from its `length` and the destination pre-adds it; then either
the raw arrays are swapped (destination empty) or the bytes are appended via
`extend_memcopy_raw` (which adds the count to the destination's `length`
again) and the source array is replaced by a fresh empty one. -/
def transferEntityType {α : Type} [Inhabited α] (s : CompactableStorage α)
    (a b : Nat) (dst : CompactableStorage α) :
    CompactableStorage α × CompactableStorage α :=
  let si := s.index a
  let di := dst.index b
  let entityCount := (s.components.getD si []).length
  let s1 := { s with length := s.length - entityCount }
  let d1 := { dst with length := dst.length + entityCount }
  if (d1.components.getD di []).length = 0 then
    let sArr := s1.components.getD si []
    let dArr := d1.components.getD di []
    let s2 := { s1 with components := s1.components.set si dArr }
    let d2 := { d1 with components := d1.components.set di sArr }
    (s2.updateView si, d2.updateView di)
  else
    let viewLen := s1.views.getD si 0
    let vals := (s1.components.getD si []).take viewLen
    let d2 := d1.extendMemcopyRaw b vals
    let s2 := { s1 with components := s1.components.set si [] }
    (s2.updateView si, d2.updateView di)

/-- The spec invariant for one typed storage: the `length` field equals the
sum of the per-archetype array lengths. -/
def lengthInvariant {α : Type} (s : CompactableStorage α) : Prop :=
  s.length = (s.components.map List.length).sum

instance {α : Type} (s : CompactableStorage α) : Decidable (lengthInvariant s) := by
  unfold lengthInvariant
  infer_instance

end CompactableStorage

/-- A storage over `usize` holding `[1]` for archetype 0. -/
def transferSrcStorage : CompactableStorage Nat :=
  (CompactableStorage.empty.insertEntityType 0).extendMemcopyRaw 0 [1]

/-- A peer storage over `usize` holding `[2]` for archetype 0. -/
def transferDstStorage : CompactableStorage Nat :=
  (CompactableStorage.empty.insertEntityType 0).extendMemcopyRaw 0 [2]

/-- C3: the `length = sum of array lengths` invariant is violated by
`transfer_entity_type` into a destination with a non-empty array: the
destination's `length` is incremented by the moved count twice (once before
the branch and once inside `extend_memcopy_raw`), while its array grows only
once.  Both storages satisfy the invariant before the transfer; afterwards
the destination reports `length = 3` over arrays summing to `2`. -/
theorem compactable_storage_total_len_transfer_bug :
    CompactableStorage.lengthInvariant transferSrcStorage ∧
    CompactableStorage.lengthInvariant transferDstStorage ∧
    (transferSrcStorage.transferEntityType 0 0 transferDstStorage).2.length = 3 ∧
    (((transferSrcStorage.transferEntityType 0 0 transferDstStorage).2.components.map
        List.length).sum = 2) ∧
    ¬ CompactableStorage.lengthInvariant
        (transferSrcStorage.transferEntityType 0 0 transferDstStorage).2 ∧
    CompactableStorage.lengthInvariant
        (transferSrcStorage.transferEntityType 0 0 transferDstStorage).1 := by
  decide

/-- C4 (general part and the three storage-level scenarios): for a registered
archetype whose array is `arr` and a row `r < arr.length`, `swap_remove`
returns the value at `r`; the remaining array is one shorter, its row `j`
holds the original last value when `j = r` (the swap happened) and the
original row `j` otherwise.  On `[1,2,3,4,5]`: removing row 2 leaves
`[1,2,5,4]`, row 0 leaves `[5,2,3,4]`, row 4 leaves `[1,2,3,4]`. -/
theorem compactable_storage_swap_remove_spec :
    (∀ (st : CompactableStorage Nat) (a r : Nat) (arr : List Nat),
      st.index a < st.components.length →
      st.components.getD (st.index a) [] = arr →
      r < arr.length →
      (st.swapRemoveInternal a r).1 = arr.getD r 0 ∧
      ((st.swapRemoveInternal a r).2.components.getD (st.index a) []).length
          = arr.length - 1 ∧
      (∀ j, j < arr.length - 1 →
        ((st.swapRemoveInternal a r).2.components.getD (st.index a) [])[j]? =
          if j = r then arr[arr.length - 1]? else arr[j]?)) ∧
    ((((CompactableStorage.empty.insertEntityType 0).extendMemcopyRaw 0
        [1, 2, 3, 4, 5]).swapRemoveInternal 0 2).1 = 3 ∧
      ((((CompactableStorage.empty.insertEntityType 0).extendMemcopyRaw 0
        [1, 2, 3, 4, 5]).swapRemoveInternal 0 2).2.components.getD 0 [])
        = [1, 2, 5, 4]) ∧
    ((((CompactableStorage.empty.insertEntityType 0).extendMemcopyRaw 0
        [1, 2, 3, 4, 5]).swapRemoveInternal 0 0).1 = 1 ∧
      ((((CompactableStorage.empty.insertEntityType 0).extendMemcopyRaw 0
        [1, 2, 3, 4, 5]).swapRemoveInternal 0 0).2.components.getD 0 [])
        = [5, 2, 3, 4]) ∧
    ((((CompactableStorage.empty.insertEntityType 0).extendMemcopyRaw 0
        [1, 2, 3, 4, 5]).swapRemoveInternal 0 4).1 = 5 ∧
      ((((CompactableStorage.empty.insertEntityType 0).extendMemcopyRaw 0
        [1, 2, 3, 4, 5]).swapRemoveInternal 0 4).2.components.getD 0 [])
        = [1, 2, 3, 4]) := by
  refine ⟨?_, by decide, by decide, by decide⟩
  intro st a r arr hvi harr hr
  unfold CompactableStorage.swapRemoveInternal
  simp only [ComponentArray.swapRemove, harr]
  have hget : ∀ (l : List (List Nat)) (vi : Nat) (x : List Nat), vi < l.length →
      (l.set vi x).getD vi [] = x := by
    intro l vi x h
    rw [List.getD_eq_getElem?_getD, List.getElem?_set_self' , List.getElem?_eq_getElem h]
    simp
  refine ⟨rfl, ?_, ?_⟩
  · simp only [CompactableStorage.updateView]
    rw [hget _ _ _ hvi]
    exact length_swapRemoveList arr r
  · intro j hj
    simp only [CompactableStorage.updateView]
    rw [hget _ _ _ hvi]
    by_cases hjr : j = r
    · subst hjr
      have hr1 : j + 1 < arr.length := by omega
      rw [if_pos rfl]
      exact getElem?_swapRemoveList_self arr j hr1
    · rw [if_neg hjr]
      exact getElem?_swapRemoveList_of_ne arr r j hj hjr

/-- Witness for C4's general part: the `[1,2,3,4,5]` storage at row 2. -/
theorem compactable_storage_swap_remove_spec_witness :
    ((((CompactableStorage.empty.insertEntityType 0).extendMemcopyRaw 0
        [1, 2, 3, 4, 5]).swapRemoveInternal 0 2).1 = 3 ∧
      ((((CompactableStorage.empty.insertEntityType 0).extendMemcopyRaw 0
        [1, 2, 3, 4, 5]).swapRemoveInternal 0 2).2.components.getD 0 []).length = 4) := by
  have h := compactable_storage_swap_remove_spec.1
    ((CompactableStorage.empty.insertEntityType 0).extendMemcopyRaw 0 [1, 2, 3, 4, 5])
    0 2 [1, 2, 3, 4, 5] (by decide) (by decide) (by decide)
  exact ⟨h.1, by rw [show ((((CompactableStorage.empty.insertEntityType 0).extendMemcopyRaw 0
    [1, 2, 3, 4, 5]).swapRemoveInternal 0 2).2.components.getD 0 []).length =
    ((((CompactableStorage.empty.insertEntityType 0).extendMemcopyRaw 0
    [1, 2, 3, 4, 5]).swapRemoveInternal 0 2).2.components.getD
    (((CompactableStorage.empty.insertEntityType 0).extendMemcopyRaw 0
    [1, 2, 3, 4, 5]).index 0) []).length from rfl]; rw [h.2.1]; decide⟩

/-! ### Write session (src/world.rs, `MultiViewMut`)

`claim<T>` inserts T's id into the claimed set and returns a mutable handle
to T's storage whenever the component map has one; the insert's return value
is discarded and nothing is asserted. -/

structure MultiViewMut where
  claimed : List Nat
  deriving Repr, DecidableEq

/-- `MultiViewMut::claim`: `present` is the component map's key set; the
returned option is the storage handle (`Some` exactly when the map holds a
storage for the type). -/
def MultiViewMut.claim (present : List Nat) (s : MultiViewMut) (t : Nat) :
    Option Unit × MultiViewMut :=
  let claimed := if s.claimed.contains t then s.claimed else s.claimed ++ [t]
  (if present.contains t then some () else none, ⟨claimed⟩)

/-- C6: double-claim is not detected.  After claiming type 7 once (7 is then
in the claimed set), a second claim of 7 in the same session again returns a
handle; the embedded `claim` is a total function with no assertion or error
path. -/
theorem multi_view_mut_double_claim_returns_second_handle :
    (MultiViewMut.claim [7] ⟨[]⟩ 7).2.claimed = [7] ∧
    (MultiViewMut.claim [7] (MultiViewMut.claim [7] ⟨[]⟩ 7).2 7).1 = some () ∧
    (MultiViewMut.claim [7] (MultiViewMut.claim [7] ⟨[]⟩ 7).2 7).2.claimed = [7] := by
  decide

/-! ### Layout filters and archetype resolution (src/world.rs) -/

/-- `PairFilter::matches_layout`: the candidate list matches when its length
equals that of the two-element type array and both types occur in it. -/
def PairFilter.matchesLayout (t1 t2 : Nat) (components : List Nat) : Bool :=
  let typeArray := [t1, t2]
  typeArray.length == components.length &&
    typeArray.all (fun typeId => components.contains typeId)

/-- Modelled from the spec: `EntityLayout::new` and
`EntityLayout::register_component` are referenced by
`SingleEntity::<(T1,T2)>::layout` (world.rs:350-356) but absent from src; per
spec section 3 a layout is the ordered list of the registered component type
ids, so the pair source's layout is `[t1, t2]`. -/
def pairLayout (t1 t2 : Nat) : List Nat := [t1, t2]

/-- `World::get_entity_type_for_components`, restricted to the layout data it
inspects: linearly search the archetype list for the first layout accepted by
the filter; if none matches, append a new archetype with the source's layout
(as `World::insert_entity_type` does) and return its index. -/
def getEntityTypeForComponents (t1 t2 : Nat) (layouts : List (List Nat)) :
    Nat × List (List Nat) :=
  match layouts.findIdx? (PairFilter.matchesLayout t1 t2) with
  | some i => (i, layouts)
  | none => (layouts.length, layouts ++ [pairLayout t1 t2])

theorem matchesLayout_iff (t1 t2 : Nat) (C : List Nat) :
    PairFilter.matchesLayout t1 t2 C = true ↔ (C.length = 2 ∧ t1 ∈ C ∧ t2 ∈ C) := by
  simp only [PairFilter.matchesLayout, List.length_cons, List.length_nil,
    List.all_cons, List.all_nil, Bool.and_eq_true, beq_iff_eq]
  constructor
  · rintro ⟨hl, h1, h2, -⟩
    exact ⟨hl.symm, by simpa using h1, by simpa using h2⟩
  · rintro ⟨hl, h1, h2⟩
    exact ⟨hl.symm, by simpa using h1, by simpa using h2, trivial⟩

theorem matchesLayout_symm (t1 t2 : Nat) :
    PairFilter.matchesLayout t1 t2 = PairFilter.matchesLayout t2 t1 := by
  funext C
  rcases h12 : PairFilter.matchesLayout t1 t2 C with _ | _
  · rcases h21 : PairFilter.matchesLayout t2 t1 C with _ | _
    · rfl
    · obtain ⟨hl, h2, h1⟩ := (matchesLayout_iff t2 t1 C).mp h21
      rw [← h12, (matchesLayout_iff t1 t2 C).mpr ⟨hl, h1, h2⟩]
  · obtain ⟨hl, h1, h2⟩ := (matchesLayout_iff t1 t2 C).mp h12
    rw [(matchesLayout_iff t2 t1 C).mpr ⟨hl, h2, h1⟩]

/-- C7: the pair layout filter accepts a candidate type list exactly when it
has length two and contains both types; hence resolving an archetype for
`(T2, T1)` right after resolving one for `(T1, T2)` yields the same archetype
index and creates no second archetype. -/
theorem layout_filter_order_insensitive :
    (∀ t1 t2 : Nat, ∀ C : List Nat,
      PairFilter.matchesLayout t1 t2 C = true ↔
        (C.length = 2 ∧ t1 ∈ C ∧ t2 ∈ C)) ∧
    (∀ t1 t2 : Nat, ∀ layouts : List (List Nat),
      (getEntityTypeForComponents t2 t1
          (getEntityTypeForComponents t1 t2 layouts).2).1 =
        (getEntityTypeForComponents t1 t2 layouts).1 ∧
      (getEntityTypeForComponents t2 t1
          (getEntityTypeForComponents t1 t2 layouts).2).2 =
        (getEntityTypeForComponents t1 t2 layouts).2) := by
  refine ⟨matchesLayout_iff, ?_⟩
  intro t1 t2 layouts
  unfold getEntityTypeForComponents
  rw [matchesLayout_symm t2 t1]
  cases h : layouts.findIdx? (PairFilter.matchesLayout t1 t2) with
  | some i => simp [h]
  | none =>
    simp only [h]
    have hlast : PairFilter.matchesLayout t1 t2 (pairLayout t1 t2) = true := by
      refine (matchesLayout_iff t1 t2 (pairLayout t1 t2)).mpr ?_
      simp [pairLayout]
    rw [List.findIdx?_append, h]
    simp [List.findIdx?, hlast]

/-- Witness for C7 at concrete types 3 and 8 over one pre-existing layout. -/
theorem layout_filter_order_insensitive_witness :
    (PairFilter.matchesLayout 3 8 [8, 3] = true ↔
      (([8, 3] : List Nat).length = 2 ∧ 3 ∈ [8, 3] ∧ 8 ∈ [8, 3])) ∧
    (getEntityTypeForComponents 8 3
        (getEntityTypeForComponents 3 8 [[5, 6]]).2).1 =
      (getEntityTypeForComponents 3 8 [[5, 6]]).1 :=
  ⟨layout_filter_order_insensitive.1 3 8 [8, 3],
    (layout_filter_order_insensitive.2 8 3 [[5, 6]]).1⟩

/-! ### Location map batch insert (src/storage.rs)

`EntityLocationMap::insert` has a `todo!()` body in src (storage.rs:194-202);
the operation is modelled from the spec. -/

/-- Modelled from the spec: `EntityLocationMap::insert` (its body is
`todo!()` in src) writes `entities[i] -> (entity_type, base + i)` for each
batch member in order and returns the sequence of displaced prior
locations (the old mapping of every batch member already present).  The src
signature returns `Option<EntityLocation>`; the spec's sequence of displaced
locations is modelled as a list, of which the src `Option` is the at
most-one-displacement special case consumed by `extend_out`. -/
def EntityLocationMap.insert (m : List (Nat × (Nat × Nat))) (entities : List Nat)
    (entityType base : Nat) :
    List (Nat × (Nat × Nat)) × List (Nat × Nat) :=
  match entities with
  | [] => (m, [])
  | e :: rest =>
    let old := mapGet m e
    let m1 := mapSet m e (entityType, base)
    let result := EntityLocationMap.insert m1 rest entityType (base + 1)
    (result.1, match old with | some loc => loc :: result.2 | none => result.2)

theorem insert_mapGet_of_not_mem (m : List (Nat × (Nat × Nat)))
    (es : List Nat) (a b x : Nat) (hx : x ∉ es) :
    mapGet (EntityLocationMap.insert m es a b).1 x = mapGet m x := by
  induction es generalizing m b with
  | nil => rfl
  | cons e rest ih =>
    have hxe : x ≠ e := fun h => hx (h ▸ List.mem_cons_self e rest)
    have hxr : x ∉ rest := fun h => hx (List.mem_cons_of_mem e h)
    unfold EntityLocationMap.insert
    rw [ih _ _ hxr, mapGet_mapSet, if_neg hxe]

/-- C5: batch insert maps the i-th batch entity to `(archetype, base + i)`
and returns exactly the prior locations of the batch entities that were
already present, in batch order. -/
theorem entity_location_map_insert_spec
    (m : List (Nat × (Nat × Nat))) (es : List Nat) (a b : Nat)
    (hnd : es.Nodup) :
    (∀ i (h : i < es.length),
      mapGet (EntityLocationMap.insert m es a b).1 es[i] = some (a, b + i)) ∧
    (EntityLocationMap.insert m es a b).2 = es.filterMap (mapGet m) := by
  induction es generalizing m b with
  | nil => exact ⟨fun i h => absurd h (by simp), rfl⟩
  | cons e rest ih =>
    have hnd' : rest.Nodup := hnd.of_cons
    have he : e ∉ rest := by
      intro hmem
      exact (List.nodup_cons.mp hnd).1 hmem
    obtain ⟨ih1, ih2⟩ := ih (mapSet m e (a, b)) (b + 1) hnd'
    constructor
    · intro i h
      match i with
      | 0 =>
        show mapGet (EntityLocationMap.insert (mapSet m e (a, b)) rest a (b + 1)).1 e
            = some (a, b + 0)
        rw [insert_mapGet_of_not_mem _ _ _ _ _ he, mapGet_mapSet, if_pos rfl,
          Nat.add_zero]
      | i + 1 =>
        have hi : i < rest.length := by simpa using h
        have hstep := ih1 i hi
        show mapGet (EntityLocationMap.insert (mapSet m e (a, b)) rest a (b + 1)).1 rest[i]
            = some (a, b + (i + 1))
        rw [hstep, show b + 1 + i = b + (i + 1) from by omega]
    · show (match mapGet m e with
        | some loc => loc :: (EntityLocationMap.insert (mapSet m e (a, b)) rest a (b + 1)).2
        | none => (EntityLocationMap.insert (mapSet m e (a, b)) rest a (b + 1)).2)
          = (e :: rest).filterMap (mapGet m)
      have hcongr : rest.filterMap (mapGet (mapSet m e (a, b))) = rest.filterMap (mapGet m) := by
        refine List.filterMap_congr ?_
        intro x hx
        have hxe : x ≠ e := fun h => he (h ▸ hx)
        rw [mapGet_mapSet, if_neg hxe]
      rw [ih2, hcongr, List.filterMap_cons]
      cases hme : mapGet m e <;> rfl

/-- Witness for C5: batch `[5, 9]` into archetype 1 at base row 3, over a map
already holding entity 5 at `(0, 0)`: entity 5 maps to `(1, 3)`, entity 9 to
`(1, 4)`, and the displaced list is exactly `[(0, 0)]`. -/
theorem entity_location_map_insert_spec_witness :
    mapGet (EntityLocationMap.insert [(5, (0, 0))] [5, 9] 1 3).1 5 = some (1, 3) ∧
    mapGet (EntityLocationMap.insert [(5, (0, 0))] [5, 9] 1 3).1 9 = some (1, 4) ∧
    (EntityLocationMap.insert [(5, (0, 0))] [5, 9] 1 3).2 = [(0, 0)] := by
  obtain ⟨h1, h2⟩ := entity_location_map_insert_spec [(5, (0, 0))] [5, 9] 1 3 (by decide)
  refine ⟨h1 0 (by decide), ?_, by rw [h2]; decide⟩
  have := h1 1 (by decide)
  simpa using this

/-! ### The world (src/world.rs)

Component values are taken to be `Nat` (the embedding is value-generic; all
claims about the world concern bookkeeping, not payloads).  Entities are the
`u64` handles as Nat, component type ids are Nat, and an `EntityLocation` is
the pair `(entity type index, component index)`. -/

structure EntityType where
  entities : List Nat
  layout : List Nat
  deriving Repr, DecidableEq

structure World where
  entities : List (Nat × (Nat × Nat))
  entityTypes : List EntityType
  entityAllocator : EntityAllocator
  components : List (Nat × CompactableStorage Nat)
  deriving Repr, DecidableEq

/-- `World::new`. -/
def World.new : World := ⟨[], [], EntityAllocator.new, []⟩

/-- `ComponentMap::get_mut(t).unwrap()` followed by an in-place mutation of
the storage: entries keyed `t` are rewritten through `f`. -/
def compUpdate (cs : List (Nat × CompactableStorage Nat)) (t : Nat)
    (f : CompactableStorage Nat → CompactableStorage Nat) :
    List (Nat × CompactableStorage Nat) :=
  cs.map (fun p => if p.1 = t then (p.1, f p.2) else p)

/-- The storage-creation loop of `World::insert_entity_type`
(world.rs:495-509): for every layout component type not yet keyed in the
component map, construct the storage via the layout's constructor (the
`CompactableStorage` default) and register it. -/
def insertEntityTypeStorages (comps : List (Nat × CompactableStorage Nat))
    (layout : List Nat) : List (Nat × CompactableStorage Nat) :=
  let missing := layout.filter (fun t => !(mapGet comps t).isSome)
  missing.foldl
    (fun acc t => if (mapGet acc t).isSome then acc else mapSet acc t CompactableStorage.empty)
    comps

/-- C2: `World::insert_entity_type` creates the missing storages for the new
layout, but never calls `insert_entity_type` on any storage: after inserting
the archetype for layout `{5}` into a fresh world's state, the storage for
type 5 exists yet is the untouched default - it has no slot registered for
the new archetype 0 (empty `indices` and `components`), contradicting the
claimed post-state (an empty array slot for the new archetype), and any
subsequent append for archetype 0 would index out of bounds, which is why the
repository's own push tests cannot pass. -/
theorem world_insert_entity_type_registers_no_storage_slot :
    mapGet (insertEntityTypeStorages [] [5]) 5 = some CompactableStorage.empty ∧
    (CompactableStorage.empty : CompactableStorage Nat).indices = [] ∧
    (CompactableStorage.empty : CompactableStorage Nat).components = [] ∧
    ¬ ((CompactableStorage.empty : CompactableStorage Nat).index 0 <
        (CompactableStorage.empty : CompactableStorage Nat).components.length) := by
  refine ⟨by decide, rfl, rfl, by decide⟩

/-- `World::insert_entity_type`: append the new archetype, create missing
storages (src), then - modelled from the spec (section 4.7 step 3), these
calls being absent from src as the C2 theorem records - call
`insert_entity_type(new index)` on every storage whose component type is in
the layout. -/
def World.insertEntityType (w : World) (layout : List Nat) : Nat × World :=
  let idx := w.entityTypes.length
  let ets := w.entityTypes ++ [⟨[], layout⟩]
  let comps0 := insertEntityTypeStorages w.components layout
  let comps1 := layout.foldl
    (fun acc t => compUpdate acc t (fun st => st.insertEntityType idx)) comps0
  (idx, { w with entityTypes := ets, components := comps1 })

/-- `World::get_entity_type_for_components` for a pair source: linear search
with the pair filter, else insert a new archetype with the pair layout. -/
def World.getEntityTypeForComponents (t1 t2 : Nat) (w : World) : Nat × World :=
  match w.entityTypes.findIdx? (fun et : EntityType => PairFilter.matchesLayout t1 t2 et.layout) with
  | some i => (i, w)
  | none => w.insertEntityType (pairLayout t1 t2)

/-- `World::remove_at_location`: swap-remove the row from the archetype's
entity list, swap-remove the row from every storage of the layout, and if the
freed row is again occupied (a last entity was swapped in), point that
entity's map entry at the freed location. -/
def World.removeAtLocation (w : World) (loc : Nat × Nat) : World :=
  let a := loc.1
  let r := loc.2
  let et := w.entityTypes.getD a ⟨[], []⟩
  let entities' := swapRemoveList et.entities r
  let ets := w.entityTypes.set a ⟨entities', et.layout⟩
  let comps := et.layout.foldl
    (fun acc t => compUpdate acc t (fun st => st.swapRemove a r)) w.components
  let w1 := { w with entityTypes := ets, components := comps }
  if r < entities'.length then
    { w1 with entities := mapSet w1.entities (entities'.getD r 0) loc }
  else w1

/-- `World::remove`: take the entity's mapping out of the location map; when
present, clean up at that location and report true, else report false. -/
def World.remove (e : Nat) (w : World) : Bool × World :=
  match mapGet w.entities e with
  | some loc => (true, World.removeAtLocation { w with entities := mapRemove w.entities e } loc)
  | none => (false, w)

/-- `World::extend_out` (= `World::push`) for the `SingleEntity<(T1, T2)>`
source of src: resolve or create the archetype, mint one entity (the
allocator is the spec's entity stream; `EntityLocationMap::insert` and the
displaced-location cleanup are the spec-modelled pieces noted on their
definitions), append it to the archetype, bulk-append one value per claimed
component storage, record the location, and remove any displaced prior
locations. -/
def World.extendPair (t1 t2 v1 v2 : Nat) (w : World) : World :=
  let resolved := w.getEntityTypeForComponents t1 t2
  let idx := resolved.1
  let w1 := resolved.2
  let alloc := w1.entityAllocator.allocate
  let e := alloc.1
  let et := w1.entityTypes.getD idx ⟨[], []⟩
  let base := et.entities.length
  let ets := w1.entityTypes.set idx ⟨et.entities ++ [e], et.layout⟩
  let comps := compUpdate w1.components t1 (fun st => st.extendMemcopyRaw idx [v1])
  let comps2 := compUpdate comps t2 (fun st => st.extendMemcopyRaw idx [v2])
  let ins := EntityLocationMap.insert w1.entities [e] idx base
  let w2 : World :=
    { entities := ins.1, entityTypes := ets, entityAllocator := alloc.2,
      components := comps2 }
  ins.2.foldl World.removeAtLocation w2

/-- `World::clear`: snapshot the keys of the location map and remove each. -/
def World.clear (w : World) : World :=
  (mapKeys w.entities).foldl (fun acc e => (World.remove e acc).2) w

/-- The public mutating operations of the world reachable through src's only
`ComponentSource` (the pair source): `push` and `extend` each insert one
entity with a two-type layout. -/
inductive WOp where
  | push (t1 t2 v1 v2 : Nat)
  | extend (t1 t2 v1 v2 : Nat)
  | remove (e : Nat)
  | clear
  deriving Repr, DecidableEq

def WOp.apply (w : World) : WOp → World
  | .push t1 t2 v1 v2 => World.extendPair t1 t2 v1 v2 w
  | .extend t1 t2 v1 v2 => World.extendPair t1 t2 v1 v2 w
  | .remove e => (World.remove e w).2
  | .clear => World.clear w

/-- Run a sequence of operations on a fresh world. -/
def World.run (ops : List WOp) : World :=
  ops.foldl WOp.apply World.new

/-- The C1 invariant: every location-map entry points back at its entity. -/
def World.locationConsistent (w : World) : Prop :=
  ∀ e a r, mapGet w.entities e = some (a, r) →
    ∃ et, w.entityTypes[a]? = some et ∧ et.entities[r]? = some e

/-- The inductive well-formedness of reachable worlds: the C1 invariant, all
archetype members below the allocator's water mark, an empty free queue
(nothing ever calls `deallocate`), and all mapped entities below the water
mark. -/
def World.wf (w : World) : Prop :=
  w.locationConsistent ∧
  (∀ (a : Nat) (et : EntityType), w.entityTypes[a]? = some et →
    ∀ x ∈ et.entities, x < w.entityAllocator.max_id) ∧
  w.entityAllocator.available_entities = [] ∧
  (∀ e loc, mapGet w.entities e = some loc → e < w.entityAllocator.max_id)

theorem findIdx?_some_bound {α : Type} (p : α → Bool) :
    ∀ (l : List α) (i j : Nat), List.findIdx? p l i = some j → j < i + l.length := by
  intro l
  induction l with
  | nil => intro i j h; simp [List.findIdx?] at h
  | cons x xs ih =>
    intro i j h
    rw [List.findIdx?_cons] at h
    by_cases hp : p x
    · rw [if_pos hp] at h
      cases h
      simp
    · rw [if_neg hp] at h
      have := ih (i + 1) j h
      simp only [List.length_cons]
      omega

theorem getElem?_eq_some_getD {α : Type} (l : List α) (i : Nat) (d : α)
    (h : i < l.length) : l[i]? = some (l.getD i d) := by
  rw [List.getD_eq_getElem?_getD, List.getElem?_eq_getElem h]
  rfl

theorem mapGet_compUpdate (cs : List (Nat × CompactableStorage Nat)) (t x : Nat)
    (f : CompactableStorage Nat → CompactableStorage Nat) :
    mapGet (compUpdate cs t f) x =
      if x = t then (mapGet cs t).map f else mapGet cs x := by
  induction cs with
  | nil => simp [compUpdate, mapGet]
  | cons p rest ih =>
    obtain ⟨k, v⟩ := p
    simp only [compUpdate, List.map_cons] at ih ⊢
    by_cases hkt : k = t
    · subst hkt
      rw [if_pos rfl]
      by_cases hkx : k = x
      · subst hkx
        simp [mapGet]
      · have hxk : ¬ x = k := fun h => hkx h.symm
        simp [mapGet, hkx, hxk, ih]
    · rw [if_neg hkt]
      by_cases hkx : k = x
      · subst hkx
        simp [mapGet, hkt]
      · simp [mapGet, hkt, hkx, ih]

theorem World.wf_new : World.wf World.new := by
  refine ⟨?_, ?_, rfl, ?_⟩
  · intro e a r h
    simp [World.new, mapGet] at h
  · intro a et h
    simp [World.new] at h
  · intro e loc h
    simp [World.new, mapGet] at h

theorem World.wf_remove (w : World) (e : Nat) (hwf : World.wf w) :
    World.wf (World.remove e w).2 := by
  obtain ⟨hA, hF, hG, hH⟩ := hwf
  unfold World.remove
  cases hget : mapGet w.entities e with
  | none => exact ⟨hA, hF, hG, hH⟩
  | some loc =>
    obtain ⟨a, r⟩ := loc
    obtain ⟨et, hets, hre⟩ := hA e a r hget
    have ha : a < w.entityTypes.length := (List.getElem?_eq_some.mp hets).1
    have hrlen : r < et.entities.length := (List.getElem?_eq_some.mp hre).1
    have hetD : w.entityTypes.getD a ⟨[], []⟩ = et := by
      rw [List.getD_eq_getElem?_getD, hets]
      rfl
    have hlen' : (swapRemoveList et.entities r).length = et.entities.length - 1 :=
      length_swapRemoveList et.entities r
    simp only [World.removeAtLocation, hetD]
    by_cases hswap : r < (swapRemoveList et.entities r).length
    · rw [if_pos hswap]
      have hrn1 : r + 1 < et.entities.length := by omega
      have hmEl : (swapRemoveList et.entities r)[r]? = et.entities[et.entities.length - 1]? :=
        getElem?_swapRemoveList_self et.entities r hrn1
      have hml' : (swapRemoveList et.entities r)[r]? =
          some ((swapRemoveList et.entities r).getD r 0) :=
        getElem?_eq_some_getD _ r 0 hswap
      have hlastval : et.entities[et.entities.length - 1]? =
          some ((swapRemoveList et.entities r).getD r 0) := by
        rw [← hmEl, hml']
      have hm_in_l : (swapRemoveList et.entities r).getD r 0 ∈ et.entities := by
        obtain ⟨hlt, hv⟩ := List.getElem?_eq_some.mp hlastval
        exact hv ▸ List.getElem_mem hlt
      refine ⟨?_, ?_, hG, ?_⟩
      · intro e' a' r' hfin
        rw [mapGet_mapSet] at hfin
        by_cases he'm : e' = (swapRemoveList et.entities r).getD r 0
        · rw [if_pos he'm] at hfin
          obtain ⟨haa, hrr⟩ := Prod.mk.injEq .. ▸ Option.some.inj hfin
          refine ⟨⟨swapRemoveList et.entities r, et.layout⟩, ?_, ?_⟩
          · rw [← haa, List.getElem?_set_self', hets]
            rfl
          · show (swapRemoveList et.entities r)[r']? = some e'
            rw [← hrr, hml', he'm]
        · rw [if_neg he'm, mapGet_mapRemove] at hfin
          by_cases he'e : e' = e
          · rw [if_pos he'e] at hfin
            exact absurd hfin (by simp)
          · rw [if_neg he'e] at hfin
            obtain ⟨et'', hets'', hr''⟩ := hA e' a' r' hfin
            by_cases haa : a' = a
            · subst haa
              have hetq : et'' = et := Option.some.inj (hets'' ▸ hets)
              subst hetq
              have hr'lt : r' < et''.entities.length := (List.getElem?_eq_some.mp hr'').1
              have hr'ne : r' ≠ r := by
                intro hh
                rw [hh, hre] at hr''
                exact he'e (Option.some.inj hr'').symm
              have hr'nlast : r' ≠ et''.entities.length - 1 := by
                intro hh
                rw [hh, hlastval] at hr''
                exact he'm (Option.some.inj hr'').symm
              refine ⟨⟨swapRemoveList et''.entities r, et''.layout⟩, ?_, ?_⟩
              · rw [List.getElem?_set_self', hets'']
                rfl
              · show (swapRemoveList et''.entities r)[r']? = some e'
                rw [getElem?_swapRemoveList_of_ne et''.entities r r' (by omega) hr'ne, hr'']
            · have hane : a ≠ a' := fun hh => haa hh.symm
              exact ⟨et'', by rw [List.getElem?_set_ne hane]; exact hets'', hr''⟩
      · intro a' et' hets' x hx
        by_cases haa : a' = a
        · subst haa
          rw [List.getElem?_set_self', hets] at hets'
          have : et' = ⟨swapRemoveList et.entities r, et.layout⟩ :=
            (Option.some.inj hets').symm
          subst this
          exact hF a' et hets x (mem_of_mem_swapRemoveList _ _ _ hx)
        · have hane : a ≠ a' := fun hh => haa hh.symm
          rw [List.getElem?_set_ne hane] at hets'
          exact hF a' et' hets' x hx
      · intro e' loc' hfin
        rw [mapGet_mapSet] at hfin
        by_cases he'm : e' = (swapRemoveList et.entities r).getD r 0
        · subst he'm
          exact hF a et hets _ hm_in_l
        · rw [if_neg he'm, mapGet_mapRemove] at hfin
          by_cases he'e : e' = e
          · rw [if_pos he'e] at hfin
            exact absurd hfin (by simp)
          · rw [if_neg he'e] at hfin
            exact hH e' loc' hfin
    · rw [if_neg hswap]
      refine ⟨?_, ?_, hG, ?_⟩
      · intro e' a' r' hfin
        rw [mapGet_mapRemove] at hfin
        by_cases he'e : e' = e
        · rw [if_pos he'e] at hfin
          exact absurd hfin (by simp)
        · rw [if_neg he'e] at hfin
          obtain ⟨et'', hets'', hr''⟩ := hA e' a' r' hfin
          by_cases haa : a' = a
          · subst haa
            have hetq : et'' = et := Option.some.inj (hets'' ▸ hets)
            subst hetq
            have hr'lt : r' < et''.entities.length := (List.getElem?_eq_some.mp hr'').1
            have hr'ne : r' ≠ r := by
              intro hh
              rw [hh, hre] at hr''
              exact he'e (Option.some.inj hr'').symm
            have hreq : r = et''.entities.length - 1 := by omega
            refine ⟨⟨swapRemoveList et''.entities r, et''.layout⟩, ?_, ?_⟩
            · rw [List.getElem?_set_self', hets'']
              rfl
            · show (swapRemoveList et''.entities r)[r']? = some e'
              rw [getElem?_swapRemoveList_of_ne et''.entities r r' (by omega) hr'ne, hr'']
          · have hane : a ≠ a' := fun hh => haa hh.symm
            exact ⟨et'', by rw [List.getElem?_set_ne hane]; exact hets'', hr''⟩
      · intro a' et' hets' x hx
        by_cases haa : a' = a
        · subst haa
          rw [List.getElem?_set_self', hets] at hets'
          have : et' = ⟨swapRemoveList et.entities r, et.layout⟩ :=
            (Option.some.inj hets').symm
          subst this
          exact hF a' et hets x (mem_of_mem_swapRemoveList _ _ _ hx)
        · have hane : a ≠ a' := fun hh => haa hh.symm
          rw [List.getElem?_set_ne hane] at hets'
          exact hF a' et' hets' x hx
      · intro e' loc' hfin
        rw [mapGet_mapRemove] at hfin
        by_cases he'e : e' = e
        · rw [if_pos he'e] at hfin
          exact absurd hfin (by simp)
        · rw [if_neg he'e] at hfin
          exact hH e' loc' hfin

theorem World.wf_insertEntityType (w : World) (layout : List Nat) (hwf : World.wf w) :
    World.wf (w.insertEntityType layout).2 ∧
    (w.insertEntityType layout).2.entities = w.entities ∧
    (w.insertEntityType layout).2.entityAllocator = w.entityAllocator ∧
    (w.insertEntityType layout).1 < (w.insertEntityType layout).2.entityTypes.length := by
  obtain ⟨hA, hF, hG, hH⟩ := hwf
  unfold World.insertEntityType
  refine ⟨⟨?_, ?_, hG, hH⟩, rfl, rfl, ?_⟩
  · intro e a r h
    obtain ⟨et, hets, hre⟩ := hA e a r h
    have ha : a < w.entityTypes.length := (List.getElem?_eq_some.mp hets).1
    exact ⟨et, by rw [List.getElem?_append_left ha]; exact hets, hre⟩
  · intro a et hets x hx
    by_cases ha : a < w.entityTypes.length
    · rw [List.getElem?_append_left ha] at hets
      exact hF a et hets x hx
    · rw [List.getElem?_append_right (by omega)] at hets
      obtain ⟨hlt, -⟩ := List.getElem?_eq_some.mp hets
      have h0 : a - w.entityTypes.length = 0 := by
        simp only [List.length_cons, List.length_nil] at hlt
        omega
      rw [h0] at hets
      have het : et = ⟨[], layout⟩ := by
        have hsing : ([⟨[], layout⟩] : List EntityType)[0]? = some ⟨[], layout⟩ := rfl
        rw [hsing] at hets
        exact (Option.some.inj hets).symm
      rw [het] at hx
      simp at hx
  · simp

theorem World.getEntityTypeFor_spec (w : World) (t1 t2 : Nat) (hwf : World.wf w) :
    World.wf (w.getEntityTypeForComponents t1 t2).2 ∧
    (w.getEntityTypeForComponents t1 t2).2.entities = w.entities ∧
    (w.getEntityTypeForComponents t1 t2).2.entityAllocator = w.entityAllocator ∧
    (w.getEntityTypeForComponents t1 t2).1 <
      (w.getEntityTypeForComponents t1 t2).2.entityTypes.length := by
  unfold World.getEntityTypeForComponents
  cases hfind : w.entityTypes.findIdx?
      (fun et : EntityType => PairFilter.matchesLayout t1 t2 et.layout) with
  | some i =>
    refine ⟨hwf, rfl, rfl, ?_⟩
    have hb := findIdx?_some_bound _ w.entityTypes 0 i hfind
    show i < w.entityTypes.length
    omega
  | none => exact World.wf_insertEntityType w (pairLayout t1 t2) hwf

theorem World.extendPair_eq (w : World) (t1 t2 v1 v2 : Nat)
    (hG : (w.getEntityTypeForComponents t1 t2).2.entityAllocator.available_entities = [])
    (hfresh : mapGet (w.getEntityTypeForComponents t1 t2).2.entities
      (w.getEntityTypeForComponents t1 t2).2.entityAllocator.max_id = none) :
    World.extendPair t1 t2 v1 v2 w =
      { entities := mapSet (w.getEntityTypeForComponents t1 t2).2.entities
          (w.getEntityTypeForComponents t1 t2).2.entityAllocator.max_id
          ((w.getEntityTypeForComponents t1 t2).1,
            ((w.getEntityTypeForComponents t1 t2).2.entityTypes.getD
              (w.getEntityTypeForComponents t1 t2).1 ⟨[], []⟩).entities.length),
        entityTypes := (w.getEntityTypeForComponents t1 t2).2.entityTypes.set
          (w.getEntityTypeForComponents t1 t2).1
          ⟨((w.getEntityTypeForComponents t1 t2).2.entityTypes.getD
              (w.getEntityTypeForComponents t1 t2).1 ⟨[], []⟩).entities ++
            [(w.getEntityTypeForComponents t1 t2).2.entityAllocator.max_id],
            ((w.getEntityTypeForComponents t1 t2).2.entityTypes.getD
              (w.getEntityTypeForComponents t1 t2).1 ⟨[], []⟩).layout⟩,
        entityAllocator :=
          ⟨(w.getEntityTypeForComponents t1 t2).2.entityAllocator.max_id + 1, []⟩,
        components := compUpdate
          (compUpdate (w.getEntityTypeForComponents t1 t2).2.components t1
            (fun st => st.extendMemcopyRaw (w.getEntityTypeForComponents t1 t2).1 [v1]))
          t2
          (fun st => st.extendMemcopyRaw (w.getEntityTypeForComponents t1 t2).1 [v2]) } := by
  unfold World.extendPair
  simp only [EntityAllocator.allocate, hG, EntityLocationMap.insert, hfresh, List.foldl]

theorem World.wf_extendPair (w : World) (t1 t2 v1 v2 : Nat) (hwf : World.wf w) :
    World.wf (World.extendPair t1 t2 v1 v2 w) := by
  obtain ⟨⟨hA1, hF1, hG1, hH1⟩, hent1, halloc1, hidx⟩ :=
    World.getEntityTypeFor_spec w t1 t2 hwf
  have hets : (w.getEntityTypeForComponents t1 t2).2.entityTypes[
      (w.getEntityTypeForComponents t1 t2).1]? =
      some ((w.getEntityTypeForComponents t1 t2).2.entityTypes.getD
        (w.getEntityTypeForComponents t1 t2).1 ⟨[], []⟩) :=
    getElem?_eq_some_getD _ _ _ hidx
  have hfresh : mapGet (w.getEntityTypeForComponents t1 t2).2.entities
      (w.getEntityTypeForComponents t1 t2).2.entityAllocator.max_id = none := by
    cases hq : mapGet (w.getEntityTypeForComponents t1 t2).2.entities
        (w.getEntityTypeForComponents t1 t2).2.entityAllocator.max_id with
    | none => rfl
    | some loc => exact absurd (hH1 _ loc hq) (lt_irrefl _)
  rw [World.extendPair_eq w t1 t2 v1 v2 hG1 hfresh]
  refine ⟨?_, ?_, rfl, ?_⟩
  · intro e' a' r' h
    rw [mapGet_mapSet] at h
    by_cases he' : e' = (w.getEntityTypeForComponents t1 t2).2.entityAllocator.max_id
    · rw [if_pos he'] at h
      obtain ⟨haa, hrr⟩ := Prod.mk.injEq .. ▸ Option.some.inj h
      refine ⟨⟨((w.getEntityTypeForComponents t1 t2).2.entityTypes.getD
          (w.getEntityTypeForComponents t1 t2).1 ⟨[], []⟩).entities ++
          [(w.getEntityTypeForComponents t1 t2).2.entityAllocator.max_id],
          ((w.getEntityTypeForComponents t1 t2).2.entityTypes.getD
            (w.getEntityTypeForComponents t1 t2).1 ⟨[], []⟩).layout⟩, ?_, ?_⟩
      · rw [← haa, List.getElem?_set_self', hets]
        rfl
      · rw [← hrr, ← he']
        exact List.getElem?_concat_length _ _
    · rw [if_neg he'] at h
      obtain ⟨et'', hets'', hr''⟩ := hA1 e' a' r' h
      by_cases haa : a' = (w.getEntityTypeForComponents t1 t2).1
      · rw [haa] at hets''
        have hetq : et'' = (w.getEntityTypeForComponents t1 t2).2.entityTypes.getD
            (w.getEntityTypeForComponents t1 t2).1 ⟨[], []⟩ :=
          Option.some.inj (hets''.symm.trans hets)
        have hr'lt : r' < et''.entities.length := (List.getElem?_eq_some.mp hr'').1
        refine ⟨⟨((w.getEntityTypeForComponents t1 t2).2.entityTypes.getD
            (w.getEntityTypeForComponents t1 t2).1 ⟨[], []⟩).entities ++
            [(w.getEntityTypeForComponents t1 t2).2.entityAllocator.max_id],
            ((w.getEntityTypeForComponents t1 t2).2.entityTypes.getD
              (w.getEntityTypeForComponents t1 t2).1 ⟨[], []⟩).layout⟩, ?_, ?_⟩
        · rw [haa, List.getElem?_set_self', hets]
          rfl
        · have hstep : (et''.entities ++
              [(w.getEntityTypeForComponents t1 t2).2.entityAllocator.max_id])[r']? =
              some e' := by
            rw [List.getElem?_append_left hr'lt]
            exact hr''
          rw [hetq] at hstep
          exact hstep
      · have hane : (w.getEntityTypeForComponents t1 t2).1 ≠ a' := fun hh => haa hh.symm
        exact ⟨et'', by rw [List.getElem?_set_ne hane]; exact hets'', hr''⟩
  · intro a' et' hets' x hx
    by_cases haa : a' = (w.getEntityTypeForComponents t1 t2).1
    · rw [haa, List.getElem?_set_self', hets] at hets'
      have het' : et' = ⟨((w.getEntityTypeForComponents t1 t2).2.entityTypes.getD
          (w.getEntityTypeForComponents t1 t2).1 ⟨[], []⟩).entities ++
          [(w.getEntityTypeForComponents t1 t2).2.entityAllocator.max_id],
          ((w.getEntityTypeForComponents t1 t2).2.entityTypes.getD
            (w.getEntityTypeForComponents t1 t2).1 ⟨[], []⟩).layout⟩ :=
        (Option.some.inj hets').symm
      rw [het'] at hx
      simp only [List.mem_append, List.mem_singleton] at hx
      show x < (w.getEntityTypeForComponents t1 t2).2.entityAllocator.max_id + 1
      rcases hx with hx | hx
      · have := hF1 _ _ hets x hx
        omega
      · omega
    · have hane : (w.getEntityTypeForComponents t1 t2).1 ≠ a' := fun hh => haa hh.symm
      rw [List.getElem?_set_ne hane] at hets'
      have := hF1 a' et' hets' x hx
      show x < (w.getEntityTypeForComponents t1 t2).2.entityAllocator.max_id + 1
      omega
  · intro e' loc' h
    rw [mapGet_mapSet] at h
    show e' < (w.getEntityTypeForComponents t1 t2).2.entityAllocator.max_id + 1
    by_cases he' : e' = (w.getEntityTypeForComponents t1 t2).2.entityAllocator.max_id
    · omega
    · rw [if_neg he'] at h
      have := hH1 e' loc' h
      omega

theorem World.wf_fold_remove (es : List Nat) :
    ∀ w : World, World.wf w →
      World.wf (es.foldl (fun acc e => (World.remove e acc).2) w) := by
  induction es with
  | nil => intro w hwf; exact hwf
  | cons e rest ih =>
    intro w hwf
    exact ih _ (World.wf_remove w e hwf)

theorem World.wf_apply (w : World) (op : WOp) (hwf : World.wf w) :
    World.wf (WOp.apply w op) := by
  cases op with
  | push t1 t2 v1 v2 => exact World.wf_extendPair w t1 t2 v1 v2 hwf
  | extend t1 t2 v1 v2 => exact World.wf_extendPair w t1 t2 v1 v2 hwf
  | remove e => exact World.wf_remove w e hwf
  | clear => exact World.wf_fold_remove _ w hwf

theorem World.wf_foldl (ops : List WOp) :
    ∀ w : World, World.wf w → World.wf (ops.foldl WOp.apply w) := by
  induction ops with
  | nil => intro w hwf; exact hwf
  | cons op rest ih =>
    intro w hwf
    exact ih _ (World.wf_apply w op hwf)

theorem World.wf_run (ops : List WOp) : World.wf (World.run ops) :=
  World.wf_foldl ops World.new World.wf_new

/-- C1: after any sequence of push, extend, remove, and clear operations on a
fresh world, every live entity's location-map entry `(a, r)` points back at
itself: archetype `a` exists and row `r` of its entity list is that entity. -/
theorem world_location_map_points_back (ops : List WOp) (e a r : Nat)
    (h : mapGet (World.run ops).entities e = some (a, r)) :
    ∃ et, (World.run ops).entityTypes[a]? = some et ∧ et.entities[r]? = some e :=
  (World.wf_run ops).1 e a r h

/-- Witness for C1: push then remove another push; the surviving entity's
mapping points back at it. -/
theorem world_location_map_points_back_witness :
    mapGet (World.run [WOp.push 4 6 10 20]).entities 0 = some (0, 0) ∧
    ∃ et, (World.run [WOp.push 4 6 10 20]).entityTypes[0]? = some et ∧
      et.entities[0]? = some 0 := by
  refine ⟨by decide, world_location_map_points_back [WOp.push 4 6 10 20] 0 0 0 (by decide)⟩

/-- C9: `World::remove` of an unmapped entity returns false and leaves the
whole world unchanged; removing a mapped entity `e` at `(a, r)` (stated for a
well-formed location: the row holds `e`, the archetype's entity list has no
duplicates, and its two-type layout's storages are present) returns true,
deletes `e` from the location map, swap-removes row `r` from archetype `a`'s
entity list, and swap-removes the row from both component storages of the
layout. -/
theorem world_remove_unknown_false_present_true :
    (∀ (w : World) (e : Nat), mapGet w.entities e = none →
      World.remove e w = (false, w)) ∧
    (∀ (w : World) (e a r t1 t2 : Nat) (et : EntityType)
        (st1 st2 : CompactableStorage Nat),
      mapGet w.entities e = some (a, r) →
      w.entityTypes[a]? = some et →
      et.entities[r]? = some e →
      et.entities.Nodup →
      et.layout = [t1, t2] →
      t1 ≠ t2 →
      mapGet w.components t1 = some st1 →
      mapGet w.components t2 = some st2 →
      ((World.remove e w).1 = true ∧
        mapGet (World.remove e w).2.entities e = none ∧
        (World.remove e w).2.entityTypes[a]? =
          some ⟨swapRemoveList et.entities r, et.layout⟩ ∧
        mapGet (World.remove e w).2.components t1 = some (st1.swapRemove a r) ∧
        mapGet (World.remove e w).2.components t2 = some (st2.swapRemove a r))) := by
  constructor
  · intro w e h
    unfold World.remove
    rw [h]
  · intro w e a r t1 t2 et st1 st2 hm hets hre hnd hlay hne hst1 hst2
    have hetD : w.entityTypes.getD a ⟨[], []⟩ = et := by
      rw [List.getD_eq_getElem?_getD, hets]
      rfl
    have ha : a < w.entityTypes.length := (List.getElem?_eq_some.mp hets).1
    have hrlen : r < et.entities.length := (List.getElem?_eq_some.mp hre).1
    have hrem : World.remove e w =
        (true, World.removeAtLocation { w with entities := mapRemove w.entities e } (a, r)) := by
      unfold World.remove
      rw [hm]
    have hTypes : (World.removeAtLocation
        { w with entities := mapRemove w.entities e } (a, r)).entityTypes =
        w.entityTypes.set a ⟨swapRemoveList et.entities r, et.layout⟩ := by
      simp only [World.removeAtLocation, hetD]
      split <;> rfl
    have hComps : (World.removeAtLocation
        { w with entities := mapRemove w.entities e } (a, r)).components =
        et.layout.foldl
          (fun acc t => compUpdate acc t (fun st => st.swapRemove a r)) w.components := by
      simp only [World.removeAtLocation, hetD]
      split <;> rfl
    have hEnt : (World.removeAtLocation
        { w with entities := mapRemove w.entities e } (a, r)).entities =
        if r < (swapRemoveList et.entities r).length then
          mapSet (mapRemove w.entities e)
            ((swapRemoveList et.entities r).getD r 0) (a, r)
        else mapRemove w.entities e := by
      simp only [World.removeAtLocation, hetD]
      split <;> rfl
    have hn2t : ¬ t2 = t1 := fun h => hne h.symm
    refine ⟨by rw [hrem], ?_, ?_, ?_, ?_⟩
    · rw [hrem]
      show mapGet (World.removeAtLocation
          { w with entities := mapRemove w.entities e } (a, r)).entities e = none
      rw [hEnt]
      by_cases hsw : r < (swapRemoveList et.entities r).length
      · rw [if_pos hsw, mapGet_mapSet]
        have hlen' : (swapRemoveList et.entities r).length = et.entities.length - 1 :=
          length_swapRemoveList et.entities r
        have hrn1 : r + 1 < et.entities.length := by omega
        have hmv : et.entities[et.entities.length - 1]? =
            some ((swapRemoveList et.entities r).getD r 0) := by
          rw [← getElem?_swapRemoveList_self et.entities r hrn1]
          exact getElem?_eq_some_getD _ r 0 hsw
        have hem : e ≠ (swapRemoveList et.entities r).getD r 0 := by
          intro hcontra
          obtain ⟨hlt1, hv1⟩ := List.getElem?_eq_some.mp hre
          obtain ⟨hlt2, hv2⟩ := List.getElem?_eq_some.mp hmv
          have : et.entities[r] = et.entities[et.entities.length - 1] := by
            rw [hv1, hv2, hcontra]
          have := (hnd.getElem_inj_iff).mp this
          omega
        rw [if_neg hem, mapGet_mapRemove, if_pos rfl]
      · rw [if_neg hsw, mapGet_mapRemove, if_pos rfl]
    · rw [hrem]
      show (World.removeAtLocation
          { w with entities := mapRemove w.entities e } (a, r)).entityTypes[a]? = _
      rw [hTypes, List.getElem?_set_self', hets]
      rfl
    · rw [hrem]
      show mapGet (World.removeAtLocation
          { w with entities := mapRemove w.entities e } (a, r)).components t1 = _
      rw [hComps, hlay]
      show mapGet (compUpdate
        (compUpdate w.components t1 (fun st => st.swapRemove a r)) t2
        (fun st => st.swapRemove a r)) t1 = _
      rw [mapGet_compUpdate, if_neg hne, mapGet_compUpdate, if_pos rfl, hst1]
      rfl
    · rw [hrem]
      show mapGet (World.removeAtLocation
          { w with entities := mapRemove w.entities e } (a, r)).components t2 = _
      rw [hComps, hlay]
      show mapGet (compUpdate
        (compUpdate w.components t1 (fun st => st.swapRemove a r)) t2
        (fun st => st.swapRemove a r)) t2 = _
      rw [mapGet_compUpdate, if_pos rfl, mapGet_compUpdate, if_neg hn2t, hst2]
      rfl

/-- A concrete well-formed two-entity world for the C9 witness. -/
def removeWitnessWorld : World :=
  { entities := [(0, (0, 0)), (1, (0, 1))],
    entityTypes := [⟨[0, 1], [5, 7]⟩],
    entityAllocator := ⟨2, []⟩,
    components := [(5, ⟨2, [0], [2], [[10, 20]]⟩), (7, ⟨2, [0], [2], [[30, 40]]⟩)] }

/-- Witness for C9: removing the unmapped entity 99 changes nothing; removing
entity 0 at `(0, 0)` succeeds and performs the swap-removals. -/
theorem world_remove_unknown_false_present_true_witness :
    World.remove 99 removeWitnessWorld = (false, removeWitnessWorld) ∧
    ((World.remove 0 removeWitnessWorld).1 = true ∧
      mapGet (World.remove 0 removeWitnessWorld).2.entities 0 = none ∧
      (World.remove 0 removeWitnessWorld).2.entityTypes[0]? =
        some ⟨swapRemoveList [0, 1] 0, [5, 7]⟩ ∧
      mapGet (World.remove 0 removeWitnessWorld).2.components 5 =
        some ((⟨2, [0], [2], [[10, 20]]⟩ : CompactableStorage Nat).swapRemove 0 0) ∧
      mapGet (World.remove 0 removeWitnessWorld).2.components 7 =
        some ((⟨2, [0], [2], [[30, 40]]⟩ : CompactableStorage Nat).swapRemove 0 0)) :=
  ⟨world_remove_unknown_false_present_true.1 removeWitnessWorld 99 (by decide),
    world_remove_unknown_false_present_true.2 removeWitnessWorld 0 0 0 5 7
      ⟨[0, 1], [5, 7]⟩ ⟨2, [0], [2], [[10, 20]]⟩ ⟨2, [0], [2], [[30, 40]]⟩
      (by decide) (by decide) (by decide) (by decide) (by decide) (by decide)
      (by decide) (by decide)⟩

end Realm
